import Mathlib

/-!
Verification of the RGP prediction core of PPanGGOLiN
(`ppanggolin/RGP/panRGP.py`): a shallow embedding of the dynamic-programming
contig scorer, the greedy region extractor, the border-comparison predicate
and the spot/flanking graph builders, together with theorems checking the
natural-language specification against this code.

Conventions of the embedding:
* Python ints are `Int` (scores, coordinates) or `Nat` (indices, sizes).
* The mutable `MatriceNode` chain becomes a `List MatriceNode` with integer
  back-links (`prev : Option Nat`), updated functionally with `List.set`.
* Python `while` loops become fuel-indexed recursions; the fuel supplied by
  each wrapper is large enough to reproduce the Python behaviour on every
  run in which the Python loop terminates (bounds are discussed at each
  definition).
* Fallible code returns `Except String`.
-/

set_option maxHeartbeats 1000000

/-- Partition label of a gene family; the source compares the string
`namedPartition` against `"persistent"`. -/
inductive Partition
  | persistent
  | shell
  | cloud
deriving DecidableEq

/-- Gene family: identity and partition label (the only fields the RGP core
reads on `gene.family`). -/
structure GeneFamily where
  ID : Nat
  namedPartition : Partition
deriving DecidableEq

/-- Gene: family, positional index in its contig, and start/stop coordinates
(the fields read by the scoring and extraction code). -/
structure Gene where
  ID : Nat
  family : GeneFamily
  position : Nat
  start : Int
  stop : Int
deriving DecidableEq

/-- Contig: ordered gene list plus the circular flag. -/
structure Contig where
  name : String
  genes : List Gene
  is_circular : Bool
deriving DecidableEq

/-- Organism: a set of contigs. -/
structure Organism where
  name : String
  contigs : List Contig
deriving DecidableEq

/-- Modelled from the spec: the `Region` class lives in
`ppanggolin/pangenome.py`, which is not among the sources here.  Per the
spec a Region is an ordered subsequence of genes of one contig with a
numeric score and a contig-scoped generated identifier; `append` (used by
`extractRGP`) adds a gene at the end of the ordered list. -/
structure Region where
  name : String
  genes : List Gene
  score : Int
deriving DecidableEq

/-- One cell of the score matrix (`class MatriceNode`).  `state` embeds the
Python 1/0 int used for truth tests; `prev` is the index of the previous
node in the matrix (object reference in Python). -/
structure MatriceNode where
  state : Bool
  score : Int
  prev : Option Nat
  gene : Gene
deriving DecidableEq

/-- `MatriceNode.__init__`: stores the given state, clamps a non-positive
score to 0. -/
def MatriceNode.make (state : Bool) (score : Int) (prev : Option Nat) (gene : Gene) :
    MatriceNode :=
  { state := state, score := if score > 0 then score else 0, prev := prev, gene := gene }

/-- `MatriceNode.changes`: ignores the passed state and recomputes it as
`score >= 0`; clamps a negative score to 0. -/
def MatriceNode.changes (n : MatriceNode) (_state : Bool) (score : Int) : MatriceNode :=
  { n with state := decide (score ≥ 0), score := if score ≥ 0 then score else 0 }

/-- The test `gene.family.namedPartition == "persistent" and gene.family not
in multi`, shared by the three scoring loops of the source. -/
def isStrictPersistent (g : Gene) (multi : List GeneFamily) : Bool :=
  g.family.namedPartition == Partition.persistent && !(multi.contains g.family)

/-- The per-gene increment and updated streak counter: `-pow(persistent,
nbPerc)` with `nbPerc += 1` for a strict persistent gene, else the variable
gain with `nbPerc = 0` (identical in `initMatrices`, `rewriteMatrix` and the
wraparound loop). -/
def scoreModif (g : Gene) (pp vg : Int) (multi : List GeneFamily) (nbPerc : Nat) :
    Int × Nat :=
  if isStrictPersistent g multi then (-(pp ^ nbPerc), nbPerc + 1) else (vg, 0)

/-- The main left-to-right pass of `initMatrices`: builds one node per gene,
threading the previous node index and clamped score (`prev`) and the
persistent streak counter `nbPerc`; `idx` is the index of the next node. -/
def initPassAux (pp vg : Int) (multi : List GeneFamily) :
    List Gene → Option (Nat × Int) → Nat → Nat → List MatriceNode
  | [], _, _, _ => []
  | g :: rest, prev, nbPerc, idx =>
    let ms := scoreModif g pp vg multi nbPerc
    let currScore : Int :=
      match prev with
      | some pr => ms.1 + pr.2
      | none => ms.1
    let node := MatriceNode.make (decide (currScore ≥ 0)) currScore (prev.map Prod.fst) g
    node :: initPassAux pp vg multi rest (some (idx, node.score)) ms.2 (idx + 1)

/-- The circular-wraparound loop at the end of `initMatrices`: rescans nodes
from the start while in RGP state, stopping when the node is the saved last
node (`matNode == lastNode`, i.e. `c = length - 1`).  Note that the source
never reassigns `prev` inside this loop, so every recomputed score is
`modif + lastScore` with the last node's score held fixed.  The Python loop
terminates because `c` strictly increases; fuel `mat.length` therefore
always suffices, and the returned flag records that the loop exited
normally rather than by fuel exhaustion. -/
def wrapLoop (pp vg : Int) (multi : List GeneFamily) (lastScore : Int) :
    Nat → Nat → Nat → List MatriceNode → List MatriceNode × Bool
  | 0, _, _, mat => (mat, false)
  | fuel + 1, c, nbPerc, mat =>
    if c = mat.length - 1 then (mat, true)
    else
      match mat[c]? with
      | none => (mat, true)
      | some matNode =>
        let ms := scoreModif matNode.gene pp vg multi nbPerc
        let cs := ms.1 + lastScore
        let mat' := mat.set c (matNode.changes (decide (cs ≥ 0)) cs)
        if cs ≥ 0 then wrapLoop pp vg multi lastScore fuel (c + 1) ms.2 mat'
        else (mat', true)

/-- `initMatrices(contig, persistent_penalty, variable_gain, multi)`:
the main pass followed, for a circular contig still in RGP state at its last
gene, by re-pointing the first node's back-link to the last node and running
the wraparound rescan. -/
def initMatrices (contig : Contig) (pp vg : Int) (multi : List GeneFamily) :
    List MatriceNode :=
  let mat := initPassAux pp vg multi contig.genes none 0 0
  match mat.getLast? with
  | none => mat
  | some last =>
    if contig.is_circular && last.state then
      let mat0 :=
        match mat with
        | [] => mat
        | n0 :: rest => { n0 with prev := some rest.length } :: rest
      (wrapLoop pp vg multi last.score mat0.length 0 0 mat0).1
    else mat

/-- The backward walk of `extractRGP`: while the node at the current index
has state 1, append its gene, zero its state and score, and follow the
back-link; stop on a missing back-link or a state-0 node.  Every visited
state-1 node is zeroed first, so the walk makes at most
`countState1 mat + 1 ≤ mat.length + 1` steps; the wrapper's fuel
`mat.length + 1` always suffices. -/
def extractRGPAux : Nat → List MatriceNode → Option Nat → List Gene × List MatriceNode
  | 0, mat, _ => ([], mat)
  | _ + 1, mat, none => ([], mat)
  | fuel + 1, mat, some idx =>
    match mat[idx]? with
    | none => ([], mat)
    | some node =>
      if node.state then
        let mat' := mat.set idx { node with state := false, score := 0 }
        let res := extractRGPAux fuel mat' node.prev
        (node.gene :: res.1, res.2)
      else ([], mat)

/-- `extractRGP(contig, node, ID)`: builds the candidate region named
`contig.name + "_" + str(ID)` from the backward walk starting at `index`. -/
def extractRGP (contig : Contig) (mat : List MatriceNode) (index : Nat) (rid : Nat) :
    Region × List MatriceNode :=
  let res := extractRGPAux (mat.length + 1) mat (some index)
  ({ name := contig.name ++ "_" ++ toString rid, genes := res.1, score := 0 }, res.2)

/-- The rescoring loop of `rewriteMatrix`: while the (old) state of the node
at `index` is 1, recompute its score from the previous node's clamped score,
advance, and wrap to 0 on a circular contig.  Inside `mkRegions` the walk
always reaches the state-0 node just erased by `extractRGP` after fewer than
`len` steps, so the wrapper's fuel `len + 1` reproduces the Python loop
exactly on every run reachable from `mkRegions`. -/
def rewriteLoop (pp vg : Int) (multi : List GeneFamily) (circular : Bool) (len : Nat) :
    Nat → Nat → Int → Nat → List MatriceNode → List MatriceNode
  | 0, _, _, _, mat => mat
  | fuel + 1, index, prevScore, nbPerc, mat =>
    match mat[index]? with
    | none => mat
    | some nextNode =>
      if nextNode.state then
        let ms := scoreModif nextNode.gene pp vg multi nbPerc
        let cs := ms.1 + prevScore
        let newNode := nextNode.changes (decide (cs ≥ 0)) cs
        let mat' := mat.set index newNode
        if index + 1 ≥ len then
          if circular then rewriteLoop pp vg multi circular len fuel 0 newNode.score ms.2 mat'
          else mat'
        else rewriteLoop pp vg multi circular len fuel (index + 1) newNode.score ms.2 mat'
      else mat

/-- `rewriteMatrix(contig, matrix, index, persistent, continuity, multi)`:
rescores from the node after `index`.  The source's first wrap test
`index > len(matrix)` is dead code (after `index += 1` the index is at most
`len`), so when `index + 1 = len` nothing happens even on a circular
contig, exactly as in the source. -/
def rewriteMatrix (contig : Contig) (mat : List MatriceNode) (index : Nat)
    (persistent continuity : Int) (multi : List GeneFamily) : List MatriceNode :=
  match mat[index]? with
  | none => mat
  | some prevNode =>
    if index + 1 < mat.length then
      rewriteLoop persistent continuity multi contig.is_circular mat.length
        (mat.length + 1) (index + 1) prevNode.score 0 mat
    else mat

/-- The scan of `maxIndexNode`: running best score and index, updated on
`node.score >= maxScore`, so the last node attaining the maximum wins. -/
def maxIndexAux : List MatriceNode → Nat → Int → Nat → Int × Nat
  | [], _, bestScore, bestIdx => (bestScore, bestIdx)
  | n :: rest, i, bestScore, bestIdx =>
    if n.score ≥ bestScore then maxIndexAux rest (i + 1) n.score i
    else maxIndexAux rest (i + 1) bestScore bestIdx

/-- `maxIndexNode(lst)`: last node with the highest score (the source
initializes with the first element and raises on an empty list; its callers
guarantee non-emptiness, and the embedding returns `(0, 0)` there). -/
def maxIndexNode : List MatriceNode → Int × Nat
  | [] => (0, 0)
  | n0 :: rest => maxIndexAux (n0 :: rest) 0 n0.score 0

/-- The acceptance test of `mkRegions`:
`new_region[0].stop - new_region[-1].start > min_length` (on a non-empty
gene list; the caller handles the empty case as the `IndexError` it is in
Python). -/
def spanGtB (r : Region) (minLength : Int) : Bool :=
  match r.genes with
  | [] => false
  | g0 :: rest => decide (g0.stop - ((g0 :: rest).getLastD g0).start > minLength)

/-- One extraction-plus-rescore step of the `mkRegions` loop: extract at
`index`, then rewrite downstream scores from `index`. -/
def extractAndRewrite (contig : Contig) (mat : List MatriceNode) (index : Nat) (rid : Nat)
    (persistent continuity : Int) (multi : List GeneFamily) : Region × List MatriceNode :=
  let er := extractRGP contig mat index rid
  (er.1, rewriteMatrix contig er.2 index persistent continuity multi)

/-- Number of nodes currently in state 1. -/
def countState1 : List MatriceNode → Nat
  | [] => 0
  | n :: rest => (if n.state then 1 else 0) + countState1 rest

/-- The loop of `mkRegions`: while the maximal score reaches `min_score`,
extract a candidate (its ID is the number of regions accepted so far), set
its score, keep it if its genomic span exceeds `min_length`, and rewrite the
matrix.  `new_region[0]` on an empty candidate is Python's `IndexError`;
exhausted fuel is reported as the distinct error `"fuel"`. -/
def mkRegionsAux (contig : Contig) (minLength minScore persistent continuity : Int)
    (multi : List GeneFamily) :
    Nat → List MatriceNode → List Region → Except String (List Region × List MatriceNode)
  | 0, _, _ => Except.error "fuel"
  | fuel + 1, mat, acc =>
    let vi := maxIndexNode mat
    if vi.1 ≥ minScore then
      let er := extractRGP contig mat vi.2 acc.length
      let region := { er.1 with score := vi.1 }
      match region.genes with
      | [] => Except.error "IndexError"
      | _ :: _ =>
        let acc' := if spanGtB region minLength then acc ++ [region] else acc
        let mat' := rewriteMatrix contig er.2 vi.2 persistent continuity multi
        mkRegionsAux contig minLength minScore persistent continuity multi fuel mat' acc'
    else Except.ok (acc, mat)

/-- `mkRegions(contig, matrix, min_length, min_score, persistent,
continuity, multi)`.  For `min_score ≥ 1` every loop iteration zeroes at
least one state-1 node, so fuel `countState1 mat + 1` suffices (proved
below); for `min_score ≤ 0` the Python loop raises `IndexError` or loops
forever. -/
def mkRegions (contig : Contig) (mat : List MatriceNode) (minLength minScore : Int)
    (persistent continuity : Int) (multi : List GeneFamily) :
    Except String (List Region × List MatriceNode) :=
  mkRegionsAux contig minLength minScore persistent continuity multi
    (countState1 mat + 1) mat []

/-- `compute_org_rgp`: union over the non-empty contigs of the organism. -/
def compute_org_rgp (org : Organism) (persistent_penalty variable_gain : Int)
    (minLength minScore : Int) (multigenics : List GeneFamily) :
    Except String (List Region) :=
  org.contigs.foldlM
    (fun acc contig =>
      if contig.genes.length ≠ 0 then
        match mkRegions contig (initMatrices contig persistent_penalty variable_gain multigenics)
            minLength minScore persistent_penalty variable_gain multigenics with
        | Except.ok rm => Except.ok (acc ++ rm.1)
        | Except.error e => Except.error e
      else Except.ok acc)
    []

/-- `compBorder(border1, border2, overlapping_match, exact_match, set_size)`:
true when the `exact_match`-prefixes coincide, or when both borders have
length `set_size` and, for some offset `1 ≤ i ≤ set_size -
overlapping_match`, a prefix of one border equals the suffix of the other
dropped by `i` (Python `range(1, set_size - overlapping_match + 1)` is
`List.range' 1 (set_size - overlapping_match)`). -/
def compBorder (border1 border2 : List GeneFamily)
    (overlapping_match exact_match set_size : Nat) : Bool :=
  if border1.take exact_match = border2.take exact_match then true
  else if border1.length = set_size ∧ border2.length = set_size then
    ((List.range' 1 (set_size - overlapping_match)).any fun ikb =>
        decide (border1.take (border2.drop ikb).length = border2.drop ikb))
      ||
    ((List.range' 1 (set_size - overlapping_match)).any fun ib =>
        decide (border1.drop ib = border2.take (border1.drop ib).length))
  else false

/-- `checkSim(pairKnownBorder, pairBorderGenes, ...)`: each of the two known
borders must be matched by some candidate border, and each candidate border
must match some known border. -/
def checkSim (kb0 kb1 b0 b1 : List GeneFamily)
    (overlapping_match exact_match set_size : Nat) : Bool :=
  let m00 := compBorder b0 kb0 overlapping_match exact_match set_size
  let m01 := compBorder b0 kb1 overlapping_match exact_match set_size
  let m10 := compBorder b1 kb0 overlapping_match exact_match set_size
  let m11 := compBorder b1 kb1 overlapping_match exact_match set_size
  ((m00 || m10) && (m01 || m11)) && ((m00 || m01) && (m10 || m11))

/-- `checkParameterLogic(overlapping_match, set_size, exact_match)`: raises
when `overlapping_match >= set_size` or `exact_match > set_size`. -/
def checkParameterLogic (overlapping_match set_size exact_match : Nat) :
    Except String Unit :=
  if overlapping_match ≥ set_size then
    Except.error "overlapping_match_hotspot cannot be bigger than or equal to set_size_hotspot"
  else if exact_match > set_size then
    Except.error "exact_match_size_hotspot cannot be bigger than set_size_hotspot"
  else Except.ok ()

/-- Per-family occurrence data used by `get_multigenics`: for each organism
carrying the family, the number of its genes there (`fam.getOrgDict()`). -/
structure FamilyOrgInfo where
  fam : GeneFamily
  orgGenes : List (String × Nat)
deriving DecidableEq

/-- The pangenome fields the RGP entry point reads and writes. -/
structure Pangenome where
  organisms : List Organism
  geneFamilies : List FamilyOrgInfo
  regions : List Region
  status_predictedRGP : String
deriving DecidableEq

/-- `get_multigenics(pangenome, dup_margin)`: persistent families whose
duplication fraction (organisms with more than one gene over organisms
present, Python float division modelled exactly on `Rat`) reaches
`dup_margin`. -/
def get_multigenics (pangenome : Pangenome) (dup_margin : Rat) : List GeneFamily :=
  pangenome.geneFamilies.filterMap fun fr =>
    if fr.fam.namedPartition = Partition.persistent then
      let dup : Nat := (fr.orgGenes.filter fun og => og.2 > 1).length
      if ((dup : Rat) / ((fr.orgGenes.length : Nat) : Rat)) ≥ dup_margin then some fr.fam
      else none
    else none

/-- `predictRGP(pangenome, ...)`: validates the hotspot parameters first,
then (the external `checkPangenomeInfo` collaborator being assumed
satisfied) classifies multigenic families, computes the RGPs of every
organism, attaches them to the pangenome and marks the status computed.
The optional spot/flanking reporting artifacts and the drawing path are the
reporting side channel the spec places out of the core. -/
def predictRGP (pangenome : Pangenome) (persistent_penalty variable_gain : Int)
    (minLength minScore : Int) (dup_margin : Rat)
    (overlapping_match set_size exact_match : Nat) : Except String Pangenome :=
  match checkParameterLogic overlapping_match set_size exact_match with
  | Except.error e => Except.error e
  | Except.ok _ =>
    let multigenics := get_multigenics pangenome dup_margin
    match pangenome.organisms.foldlM
        (fun acc org =>
          match compute_org_rgp org persistent_penalty variable_gain minLength minScore
              multigenics with
          | Except.ok rs => Except.ok (acc ++ rs)
          | Except.error e => Except.error e) ([] : List Region) with
    | Except.error e => Except.error e
    | Except.ok rgps =>
      Except.ok
        { pangenome with
          regions := pangenome.regions ++ rgps
          status_predictedRGP := "Computed" }

/-- The node key of `makeSpotGraph.addNewNode`: the pair of border family-ID
lists sorted by first element (Python `sorted(..., key = lambda x : x[0])`
on a two-element list: stable, swaps only when the second key is smaller). -/
def nodeKeyOf (ids0 ids1 : List Nat) : List Nat × List Nat :=
  if ids1.headD 0 < ids0.headD 0 then (ids1, ids0) else (ids0, ids1)

/-- A node of the spot graph: signature key, RGP count, the two borders as
family lists, and the contributing regions. -/
structure SpotNode where
  key : List Nat × List Nat
  nb_rgp : Nat
  border0 : List GeneFamily
  border1 : List GeneFamily
  rgps : List Region
deriving DecidableEq

/-- `addNewNode(g, rgp, borders)`: collapse onto an existing node with the
same signature key (incrementing its count and adding the region), else
create the node with `border0`/`border1` taken from this first region. -/
def addNewNode (nodes : List SpotNode) (rgp : Region) (b0 b1 : List Gene) :
    List SpotNode :=
  let key := nodeKeyOf (b0.map fun g => g.family.ID) (b1.map fun g => g.family.ID)
  if nodes.any fun n => decide (n.key = key) then
    nodes.map fun n =>
      if n.key = key then { n with nb_rgp := n.nb_rgp + 1, rgps := n.rgps ++ [rgp] }
      else n
  else
    nodes ++ [{ key := key, nb_rgp := 1,
                border0 := b0.map fun g => g.family,
                border1 := b1.map fun g => g.family,
                rgps := [rgp] }]

/-- The undirected edge relation of the spot graph: the pairwise loop of
`makeSpotGraph` tests `checkSim` on each pair `i < j` of node indices. -/
def spotEdge (nodes : List SpotNode) (overlapping_match exact_match set_size : Nat)
    (i j : Nat) : Bool :=
  match nodes[min i j]?, nodes[max i j]? with
  | some ni, some nj =>
    min i j < max i j &&
      checkSim ni.border0 ni.border1 nj.border0 nj.border1
        overlapping_match exact_match set_size
  | _, _ => false

/-- Whether vertex `v` is adjacent to some member of `comp`. -/
def touchesComp (adj : Nat → Nat → Bool) (v : Nat) (comp : List Nat) : Bool :=
  comp.any fun u => adj v u || adj u v

/-- Modelled from the spec: connected components of the undirected spot
graph (the source delegates to the external `networkx` library).  Vertices
are inserted one by one; all existing components touching the new vertex
are merged with it. -/
def buildComponents (adj : Nat → Nat → Bool) :
    List Nat → List (List Nat) → List (List Nat)
  | [], comps => comps
  | v :: rest, comps =>
    let linked := comps.filter (touchesComp adj v)
    let untouched := comps.filter fun comp => !(touchesComp adj v comp)
    buildComponents adj rest ((v :: linked.flatten) :: untouched)

/-- `makeSpotGraph(rgps, multigenics, ...)` without its logging and gexf
output: regions whose borders (computed by the external
`Region.getBorderingGenes`, supplied here as the `borderOf` argument) are
shorter than `set_size` on either side are lost; the rest are keyed into
signature nodes, nodes are linked by `checkSim`, and each connected
component becomes a spot carrying its border pairs and the union of its
regions. -/
def makeSpotGraph (rgps : List Region) (borderOf : Region → List Gene × List Gene)
    (overlapping_match set_size exact_match : Nat) :
    List (List (List GeneFamily × List GeneFamily) × List Region) :=
  let nodes := rgps.foldl
    (fun acc rgp =>
      let border := borderOf rgp
      if border.1.length < set_size || border.2.length < set_size then acc
      else addNewNode acc rgp border.1 border.2)
    []
  let comps := buildComponents (spotEdge nodes overlapping_match exact_match set_size)
    (List.range nodes.length) []
  comps.map fun comp =>
    ( comp.map fun i =>
        match nodes[i]? with
        | some nd => (nd.border1, nd.border0)
        | none => ([], [])
      ,
      comp.flatMap fun i =>
        match nodes[i]? with
        | some nd => nd.rgps
        | none => [] )

/-- Modelled from the spec: `Region.__eq__` (external class) compares the
ordered gene content. -/
def regionContentEq (r1 r2 : Region) : Bool := decide (r1.genes = r2.genes)

/-- `getUniqRGP(rgpList)`: deduplicate regions under content equality. -/
def getUniqRGP (rgpList : List Region) : List Region :=
  rgpList.foldl
    (fun acc r => if acc.any fun s => regionContentEq r s then acc else acc ++ [r]) []

/-- A node of the flanking graph with its attributes. -/
structure FlankNode where
  nb_rgp : Nat
  nb_organisations : Nat
  borders : Finset (Finset GeneFamily)
deriving DecidableEq

/-- The flanking graph: node attributes plus weighted edges `(i, j, nb_bord)`. -/
structure FlankGraph where
  nodes : List FlankNode
  edges : List (Nat × Nat × Nat)
deriving DecidableEq

/-- The `bords` set of `makeFlanking`: for each signature node of the spot,
both borders each become a `frozenset` of families, collected into a set of
family-sets. -/
def spotBordersSet (borders : List (List GeneFamily × List GeneFamily)) :
    Finset (Finset GeneFamily) :=
  borders.foldl (fun s b => insert b.1.toFinset (insert b.2.toFinset s)) ∅

/-- Spec-stated border family set of a spot (used to compare the spec's
description of the flanking edges with the code): the union, over the
spot's signature nodes, of the gene families of both borders. -/
def spotFamilyUnion (borders : List (List GeneFamily × List GeneFamily)) :
    Finset GeneFamily :=
  borders.foldl (fun s b => s ∪ b.1.toFinset ∪ b.2.toFinset) ∅

/-- Out-of-range default for flanking-graph node lookups. -/
def defaultFlankNode : FlankNode := { nb_rgp := 0, nb_organisations := 0, borders := ∅ }

/-- The edge weight `inter` of `makeFlanking`: the number of border
family-sets (frozensets) shared by the two nodes. -/
def flankInter (nodes : List FlankNode) (i j : Nat) : Nat :=
  ((nodes.getD i defaultFlankNode).borders ∩ (nodes.getD j defaultFlankNode).borders).card

/-- `makeFlanking(spots, output)` without the gexf write: one node per spot
with its RGP count, distinct-content count and border family-sets; an edge
between two spots for every pair whose `borders` attributes intersect,
weighted by the number of shared family-sets. -/
def makeFlanking (spots : List (List (List GeneFamily × List GeneFamily) × List Region)) :
    FlankGraph :=
  let nodes : List FlankNode := spots.map fun sp =>
    { nb_rgp := sp.2.length, nb_organisations := (getUniqRGP sp.2).length,
      borders := spotBordersSet sp.1 }
  let edges := (List.range nodes.length).flatMap fun i =>
    (List.range' (i + 1) (nodes.length - (i + 1))).filterMap fun j =>
      if flankInter nodes i j ≠ 0 then some (i, j, flankInter nodes i j) else none
  { nodes := nodes, edges := edges }

/-! ### Helper predicates used by the theorems -/

/-- Placeholder gene used as `getD` default in index-based predicates. -/
def dummyGene : Gene :=
  { ID := 0, family := { ID := 0, namedPartition := Partition.cloud },
    position := 0, start := 0, stop := 0 }

/-- Placeholder node used as `getD` default in index-based predicates. -/
def dummyNode : MatriceNode :=
  { state := false, score := 0, prev := none, gene := dummyGene }

/-- All stored scores of the matrix are non-negative. -/
def nonnegScores (mat : List MatriceNode) : Prop := ∀ n ∈ mat, 0 ≤ n.score

instance (mat : List MatriceNode) : Decidable (nonnegScores mat) :=
  List.decidableBAll _ mat

/-- Well-formedness linking score and state: a strictly positive clamped
score only occurs on a state-1 node (established by `initMatrices` and
preserved by every write path). -/
def scoreStateWF (mat : List MatriceNode) : Prop := ∀ n ∈ mat, 0 < n.score → n.state = true

instance (mat : List MatriceNode) : Decidable (scoreStateWF mat) :=
  List.decidableBAll _ mat

/-- The back-links of a linear matrix: node `i` points to node `i - 1`,
node 0 to nothing. -/
def linearChain (mat : List MatriceNode) : Prop :=
  ∀ i < mat.length, (mat.getD i dummyNode).prev = if i = 0 then none else some (i - 1)

instance (mat : List MatriceNode) : Decidable (linearChain mat) :=
  Nat.decidableBallLT _ _

/-- The gene of node `i` sits at position `i`. -/
def posIndexed (mat : List MatriceNode) : Prop :=
  ∀ i < mat.length, (mat.getD i dummyNode).gene.position = i

instance (mat : List MatriceNode) : Decidable (posIndexed mat) :=
  Nat.decidableBallLT _ _

/-- The genes of a contig carry their index as position (data-model
invariant of the spec). -/
def posGenes (c : Contig) : Prop :=
  ∀ i < c.genes.length, (c.genes.getD i dummyGene).position = i

instance (c : Contig) : Decidable (posGenes c) :=
  Nat.decidableBallLT _ _

/-- Genes listed newest-first: each gene's position exceeds its successor's. -/
def descendingPositions (gs : List Gene) : Prop :=
  List.Chain' (fun a b => b.position < a.position) gs

instance descendingPositionsDec : (gs : List Gene) → Decidable (descendingPositions gs)
  | [] => isTrue List.chain'_nil
  | [g] => isTrue (List.chain'_singleton g)
  | a :: b :: rest =>
    haveI := descendingPositionsDec (b :: rest)
    decidable_of_iff (b.position < a.position ∧ descendingPositions (b :: rest))
      (Iff.symm (@List.chain'_cons Gene (fun x y => y.position < x.position) a b rest))

/-- Genes listed oldest-first (the ordering asserted by the spec). -/
def ascendingPositions (gs : List Gene) : Prop :=
  List.Chain' (fun a b => a.position < b.position) gs

instance ascendingPositionsDec : (gs : List Gene) → Decidable (ascendingPositions gs)
  | [] => isTrue List.chain'_nil
  | [g] => isTrue (List.chain'_singleton g)
  | a :: b :: rest =>
    haveI := ascendingPositionsDec (b :: rest)
    decidable_of_iff (a.position < b.position ∧ ascendingPositions (b :: rest))
      (Iff.symm (@List.chain'_cons Gene (fun x y => x.position < y.position) a b rest))

/-- Regions of a `mkRegions` result (empty on error). -/
def okRegions (x : Except String (List Region × List MatriceNode)) : List Region :=
  match x with
  | Except.ok rm => rm.1
  | Except.error _ => []

/-- Matrix trace of a `mkRegions` result. -/
def okMatrixPart (x : Except String (List Region × List MatriceNode)) :
    Except String (List MatriceNode) :=
  match x with
  | Except.ok rm => Except.ok rm.2
  | Except.error e => Except.error e

/-! ### Concrete fixtures for the spec scenarios -/

/-- The strict-persistent family of the scenario contigs. -/
def famP : GeneFamily := { ID := 1, namedPartition := Partition.persistent }

/-- The variable (shell) family of the scenario contigs. -/
def famV : GeneFamily := { ID := 2, namedPartition := Partition.shell }

/-- Gene `i` of a scenario contig: position `i`, coordinates
`[100 i + 1, 100 i + 100]`. -/
def mkGene (fam : GeneFamily) (i : Nat) : Gene :=
  { ID := i, family := fam, position := i,
    start := 100 * (i : Int) + 1, stop := 100 * (i : Int) + 100 }

/-- Scenario A contig: linear `[P, P, P, V, V, P, P, P]`. -/
def contigA : Contig :=
  { name := "c",
    genes := [mkGene famP 0, mkGene famP 1, mkGene famP 2, mkGene famV 3,
              mkGene famV 4, mkGene famP 5, mkGene famP 6, mkGene famP 7],
    is_circular := false }

/-- Scenario B contig: circular, five variable genes. -/
def contigB : Contig :=
  { name := "b",
    genes := [mkGene famV 0, mkGene famV 1, mkGene famV 2, mkGene famV 3, mkGene famV 4],
    is_circular := true }

/-- A one-gene all-persistent linear contig (used for the `min_score ≤ 0`
counterexamples). -/
def contigP : Contig := { name := "p", genes := [mkGene famP 0], is_circular := false }

/-- Scenario A matrix with `variable_gain = 1`. -/
def matA1 : List MatriceNode := initMatrices contigA 3 1 []

/-- Scenario A matrix with `variable_gain = 5`. -/
def matA5 : List MatriceNode := initMatrices contigA 3 5 []

/-- Scenario B matrix (`variable_gain = 1`). -/
def matB : List MatriceNode := initMatrices contigB 3 1 []

/-- Matrix of the one-gene persistent contig. -/
def matP : List MatriceNode := initMatrices contigP 3 1 []

/-- The matrix on which `initMatrices` starts its circular wraparound rescan
for scenario B: the main pass with the first node's back-link re-pointed to
the last node. -/
def matB0 : List MatriceNode :=
  match initPassAux 3 1 [] contigB.genes none 0 0 with
  | [] => []
  | n0 :: rest => { n0 with prev := some rest.length } :: rest

/-- The single region extracted in scenario A with `variable_gain = 5`. -/
def regA5 : Region := { name := "c_0", genes := [mkGene famV 4, mkGene famV 3], score := 10 }

/-- A pangenome holding only the one-gene persistent contig (used for the
`min_score = 0` failure of the entry point). -/
def pEx : Pangenome :=
  { organisms := [{ name := "o", contigs := [contigP] }], geneFamilies := [],
    regions := [], status_predictedRGP := "" }

/-- Families for the flanking-graph counterexample. -/
def fam1 : GeneFamily := { ID := 11, namedPartition := Partition.persistent }

/-- Second family for the flanking-graph counterexample. -/
def fam2 : GeneFamily := { ID := 12, namedPartition := Partition.persistent }

/-- Third family for the flanking-graph counterexample. -/
def fam3 : GeneFamily := { ID := 13, namedPartition := Partition.persistent }

/-- A region fixture for the spot/flanking graphs. -/
def regX : Region := { name := "x", genes := [mkGene famV 0], score := 1 }

/-- Another region fixture for the spot/flanking graphs. -/
def regY : Region := { name := "y", genes := [mkGene famV 1], score := 1 }

/-- A spot whose single signature node has both borders with families
`{fam1, fam2}`. -/
def spotX : List (List GeneFamily × List GeneFamily) × List Region :=
  ([([fam1, fam2], [fam1, fam2])], [regX])

/-- A spot whose single signature node has both borders with families
`{fam1, fam3}`: it shares `fam1` with `spotX` but no whole border set. -/
def spotY : List (List GeneFamily × List GeneFamily) × List Region :=
  ([([fam1, fam3], [fam1, fam3])], [regY])

/-- Three persistent border genes used by the C10 witness border oracle. -/
def borderGenesW : List Gene := [mkGene famP 10, mkGene famP 11, mkGene famP 12]

/-- A constant border oracle returning full-size borders. -/
def borderOfW : Region → List Gene × List Gene := fun _ => (borderGenesW, borderGenesW)


instance exceptDecEq {e a : Type} [DecidableEq e] [DecidableEq a] :
    DecidableEq (Except e a) := fun x y => by
  cases x with
  | error e1 =>
    cases y with
    | error e2 =>
      exact if h : e1 = e2 then isTrue (congrArg Except.error h)
        else isFalse fun he => h (Except.error.inj he)
    | ok v2 => exact isFalse fun he => Except.noConfusion he
  | ok v1 =>
    cases y with
    | error e2 => exact isFalse fun he => Except.noConfusion he
    | ok v2 =>
      exact if h : v1 = v2 then isTrue (congrArg Except.ok h)
        else isFalse fun he => h (Except.ok.inj he)

/-! ### General lemmas -/

theorem listAny_congr {α : Type} (l : List α) (f g : α → Bool)
    (h : ∀ a ∈ l, f a = g a) : l.any f = l.any g := by
  induction l with
  | nil => rfl
  | cons x xs ih =>
    simp only [List.any_cons]
    rw [h x (List.mem_cons_self x xs), ih fun a ha => h a (List.mem_cons_of_mem x ha)]

theorem make_score_nonneg (s : Bool) (sc : Int) (p : Option Nat) (g : Gene) :
    0 ≤ (MatriceNode.make s sc p g).score := by
  show 0 ≤ if sc > 0 then sc else 0
  split <;> omega

theorem changes_score_nonneg (n : MatriceNode) (s : Bool) (sc : Int) :
    0 ≤ (n.changes s sc).score := by
  show 0 ≤ if sc ≥ 0 then sc else 0
  split <;> omega

theorem nonnegScores_set {mat : List MatriceNode} {i : Nat} {a : MatriceNode}
    (h : nonnegScores mat) (ha : 0 ≤ a.score) : nonnegScores (mat.set i a) :=
  fun n hn => (List.mem_or_eq_of_mem_set hn).elim (h n) (fun e => e ▸ ha)

theorem initPassAux_nonneg (pp vg : Int) (multi : List GeneFamily)
    (genes : List Gene) : ∀ (prev : Option (Nat × Int)) (nbPerc idx : Nat),
    nonnegScores (initPassAux pp vg multi genes prev nbPerc idx) := by
  induction genes with
  | nil => intro prev nb idx n hn; simp [initPassAux] at hn
  | cons g rest ih =>
    intro prev nb idx n hn
    simp only [initPassAux, List.mem_cons] at hn
    rcases hn with h | h
    · subst h; exact make_score_nonneg _ _ _ _
    · exact ih _ _ _ n h

theorem wrapLoop_nonneg (pp vg : Int) (multi : List GeneFamily) (lastScore : Int) :
    ∀ (fuel c nbPerc : Nat) (mat : List MatriceNode), nonnegScores mat →
      nonnegScores (wrapLoop pp vg multi lastScore fuel c nbPerc mat).1 := by
  intro fuel
  induction fuel with
  | zero => intro c nb mat h; exact h
  | succ fuel ih =>
    intro c nb mat h
    rw [wrapLoop]
    split
    · exact h
    · cases hc : mat[c]? with
      | none => simpa only [hc] using h
      | some matNode =>
        simp only [hc]
        split
        · exact ih _ _ _ (nonnegScores_set h (changes_score_nonneg _ _ _))
        · exact nonnegScores_set h (changes_score_nonneg _ _ _)

theorem initMatrices_nonneg (contig : Contig) (pp vg : Int) (multi : List GeneFamily) :
    nonnegScores (initMatrices contig pp vg multi) := by
  have hbase := initPassAux_nonneg pp vg multi contig.genes none 0 0
  simp only [initMatrices]
  split
  · exact hbase
  · split
    · apply wrapLoop_nonneg
      split
      · exact hbase
      · rename_i n0 rest hM
        have hbase' : nonnegScores (n0 :: rest) := hM ▸ hbase
        intro n hn
        rcases List.mem_cons.mp hn with h | h
        · subst h
          exact hbase' n0 (List.mem_cons_self n0 rest)
        · exact hbase' n (List.mem_cons.mpr (Or.inr h))
    · exact hbase

theorem extractAux_nonneg : ∀ (fuel : Nat) (mat : List MatriceNode) (o : Option Nat),
    nonnegScores mat → nonnegScores (extractRGPAux fuel mat o).2 := by
  intro fuel
  induction fuel with
  | zero => intro mat o h; exact h
  | succ fuel ih =>
    intro mat o h
    cases o with
    | none => exact h
    | some idx =>
      rw [extractRGPAux]
      cases hc : mat[idx]? with
      | none => simpa only [hc] using h
      | some node =>
        simp only [hc]
        split
        · exact ih _ _ (nonnegScores_set h (by exact Int.le_refl 0))
        · exact h

theorem rewriteLoop_nonneg (pp vg : Int) (multi : List GeneFamily) (circular : Bool)
    (len : Nat) : ∀ (fuel index : Nat) (prevScore : Int) (nbPerc : Nat)
    (mat : List MatriceNode), nonnegScores mat →
    nonnegScores (rewriteLoop pp vg multi circular len fuel index prevScore nbPerc mat) := by
  intro fuel
  induction fuel with
  | zero => intro idx ps nb mat h; exact h
  | succ fuel ih =>
    intro idx ps nb mat h
    rw [rewriteLoop]
    cases hc : mat[idx]? with
    | none => simpa only [hc] using h
    | some nextNode =>
      simp only [hc]
      split
      · split
        · split
          · exact ih _ _ _ _ (nonnegScores_set h (changes_score_nonneg _ _ _))
          · exact nonnegScores_set h (changes_score_nonneg _ _ _)
        · exact ih _ _ _ _ (nonnegScores_set h (changes_score_nonneg _ _ _))
      · exact h

theorem extractRGP_nonneg (contig : Contig) (mat : List MatriceNode) (index rid : Nat)
    (h : nonnegScores mat) : nonnegScores (extractRGP contig mat index rid).2 :=
  extractAux_nonneg _ _ _ h

theorem rewriteMatrix_nonneg (contig : Contig) (mat : List MatriceNode) (index : Nat)
    (pers cont : Int) (multi : List GeneFamily) (h : nonnegScores mat) :
    nonnegScores (rewriteMatrix contig mat index pers cont multi) := by
  unfold rewriteMatrix
  split
  · exact h
  · split
    · exact rewriteLoop_nonneg _ _ _ _ _ _ _ _ _ _ h
    · exact h

/-- C3: every write path of the score matrix clamps: after `initMatrices`
and after any `extractRGP` erasure or `rewriteMatrix` rescoring step, every
stored node score is non-negative. -/
theorem c3_scores_nonneg (contig : Contig) (pp vg : Int) (multi : List GeneFamily)
    (mat : List MatriceNode) (index rid : Nat) :
    nonnegScores (initMatrices contig pp vg multi)
    ∧ (nonnegScores mat → nonnegScores (extractRGP contig mat index rid).2)
    ∧ (nonnegScores mat → nonnegScores (rewriteMatrix contig mat index pp vg multi)) :=
  ⟨initMatrices_nonneg contig pp vg multi,
   extractRGP_nonneg contig mat index rid,
   rewriteMatrix_nonneg contig mat index pp vg multi⟩

/-- C3 witness: the preservation statements applied to the scenario-A matrix
with `variable_gain = 5`. -/
theorem c3_witness :
    nonnegScores matA5
    ∧ nonnegScores (extractRGP contigA matA5 4 0).2
    ∧ nonnegScores (rewriteMatrix contigA matA5 4 3 5 []) :=
  ⟨(c3_scores_nonneg contigA 3 5 [] matA5 4 0).1,
   (c3_scores_nonneg contigA 3 5 [] matA5 4 0).2.1 (by decide),
   (c3_scores_nonneg contigA 3 5 [] matA5 4 0).2.2 (by decide)⟩

/-- C7: the border similarity predicate is symmetric in its two border
arguments for every parameter choice. -/
theorem c7_compBorder_symm (b1 b2 : List GeneFamily) (om em ss : Nat) :
    compBorder b1 b2 om em ss = compBorder b2 b1 om em ss := by
  unfold compBorder
  by_cases h1 : b1.take em = b2.take em
  · rw [if_pos h1, if_pos h1.symm]
  · have h1' : ¬ (b2.take em = b1.take em) := fun h => h1 h.symm
    rw [if_neg h1, if_neg h1']
    by_cases h2 : b1.length = ss ∧ b2.length = ss
    · have h2' : b2.length = ss ∧ b1.length = ss := And.intro h2.2 h2.1
      rw [if_pos h2, if_pos h2', Bool.or_comm]
      congr 1
      · exact listAny_congr _ _ _ fun i _ => by
          simp only [decide_eq_decide]; exact eq_comm
      · exact listAny_congr _ _ _ fun i _ => by
          simp only [decide_eq_decide]; exact eq_comm
    · have h2' : ¬ (b2.length = ss ∧ b1.length = ss) := fun h => h2 (And.intro h.2 h.1)
      rw [if_neg h2, if_neg h2']

/-- C1 counterexample: on the linear contig `[P,P,P,V,V,P,P,P]` with
`persistent_penalty = 3` the clamped per-node scores are not the claimed
`[0,0,0,1,2,0,0,0]` (gain 1) nor `[0,0,0,5,10,0,0,0]` (gain 5): the
persistent gene following the variable run keeps a positive score, since
its increment is only `-3^0` against the accumulated gain. -/
theorem c1_counterexample :
    matA1.map MatriceNode.score ≠ [0, 0, 0, 1, 2, 0, 0, 0]
    ∧ matA5.map MatriceNode.score ≠ [0, 0, 0, 5, 10, 0, 0, 0] := by decide

/-- C1 amended: with `variable_gain = 1` the clamped scores are
`[0,0,0,1,2,1,0,0]` and with `min_score = 4` extraction emits no region;
with `variable_gain = 5` the scores are `[0,0,0,5,10,9,6,0]` and extraction
emits exactly one region, consisting of the two variable genes (listed
newest-first) with score 10. -/
theorem c1_amended :
    matA1.map MatriceNode.score = [0, 0, 0, 1, 2, 1, 0, 0]
    ∧ okRegions (mkRegions contigA matA1 0 4 3 1 []) = []
    ∧ matA5.map MatriceNode.score = [0, 0, 0, 5, 10, 9, 6, 0]
    ∧ okRegions (mkRegions contigA matA5 0 4 3 5 []) = [regA5] := by decide

/-- C2 counterexample: on the all-variable circular 5-gene contig with
`variable_gain = 1` the highest node score after the scan is 6, not 5 (the
wraparound rescan adds the last node's score again because the source never
moves `prev` inside that loop), and with `min_score = 4`, `min_length = 0`
the returned region set is empty, not a single region of score 5: the
candidate wraps, so its recorded span `first.stop - last.start` is negative
and the span filter discards it. -/
theorem c2_counterexample :
    (maxIndexNode matB).1 = 6
    ∧ okRegions (mkRegions contigB matB 0 4 3 1 []) = [] := by decide

/-- C2 amended: the circular scan terminates (the wraparound loop exits
normally, flag `true`) with clamped scores `[6,6,6,6,5]`; one extraction
step then occurs, producing a candidate covering all 5 genes (walked
backward from index 3 through the circular back-link) with score 6, which
the span filter rejects, so `mkRegions` returns no region. -/
theorem c2_amended :
    matB.map MatriceNode.score = [6, 6, 6, 6, 5]
    ∧ (wrapLoop 3 1 [] 5 matB0.length 0 0 matB0).2 = true
    ∧ (extractRGP contigB matB 3 0).1.genes =
        [mkGene famV 3, mkGene famV 2, mkGene famV 1, mkGene famV 0, mkGene famV 4]
    ∧ maxIndexNode matB = (6, 3)
    ∧ okRegions (mkRegions contigB matB 0 4 3 1 []) = [] := by decide

theorem mkRegionsAux_matrix_indep (contig : Contig) (mS pers cont : Int)
    (multi : List GeneFamily) : ∀ (fuel : Nat) (mat : List MatriceNode)
    (mL mL' : Int) (acc acc' : List Region),
    okMatrixPart (mkRegionsAux contig mL mS pers cont multi fuel mat acc)
      = okMatrixPart (mkRegionsAux contig mL' mS pers cont multi fuel mat acc') := by
  intro fuel
  induction fuel with
  | zero => intro mat mL mL' acc acc'; rfl
  | succ fuel ih =>
    intro mat mL mL' acc acc'
    rw [mkRegionsAux, mkRegionsAux]
    by_cases h : (maxIndexNode mat).1 ≥ mS
    · simp only [if_pos h]
      dsimp only [extractRGP]
      cases hres : (extractRGPAux (mat.length + 1) mat (some (maxIndexNode mat).2)).1 with
      | nil => simp only [hres]
      | cons g gs =>
        simp only [hres]
        exact ih _ _ _ _ _
    · simp only [if_neg h]
      rfl

theorem mkRegionsAux_span (contig : Contig) (mL mS pers cont : Int)
    (multi : List GeneFamily) : ∀ (fuel : Nat) (mat : List MatriceNode) (acc : List Region),
    ∀ r ∈ okRegions (mkRegionsAux contig mL mS pers cont multi fuel mat acc),
      r ∈ acc ∨ spanGtB r mL = true := by
  intro fuel
  induction fuel with
  | zero => intro mat acc r hr; simp [okRegions, mkRegionsAux] at hr
  | succ fuel ih =>
    intro mat acc r hr
    rw [mkRegionsAux] at hr
    by_cases h : (maxIndexNode mat).1 ≥ mS
    · simp only [if_pos h] at hr
      dsimp only [extractRGP] at hr
      cases hres : (extractRGPAux (mat.length + 1) mat (some (maxIndexNode mat).2)).1 with
      | nil =>
        simp only [hres, okRegions] at hr
        exact absurd hr (List.not_mem_nil r)
      | cons g gs =>
        simp only [hres] at hr
        rcases ih _ _ r hr with h1 | h1
        · by_cases hs : spanGtB
              { name := contig.name ++ "_" ++ toString acc.length, genes := g :: gs,
                score := (maxIndexNode mat).1 } mL = true
          · rw [if_pos hs] at h1
            rcases List.mem_append.mp h1 with h2 | h2
            · exact Or.inl h2
            · right
              rcases List.mem_singleton.mp h2 with rfl
              exact hs
          · rw [if_neg hs] at h1
            exact Or.inl h1
        · exact Or.inr h1
    · simp only [if_neg h] at hr
      exact Or.inl hr

/-- C6: a candidate region whose genomic span does not exceed `min_length`
never appears in the returned region set (every returned region satisfies
the span test), while the matrix trace of the extraction loop — erasure of
the candidate's nodes and the downstream rescoring — is entirely
independent of `min_length`, i.e. a rejected candidate is erased and
propagated exactly like an accepted one. -/
theorem c6_span_filter (contig : Contig) (mat : List MatriceNode)
    (mL mL' mS pers cont : Int) (multi : List GeneFamily) :
    (∀ r ∈ okRegions (mkRegions contig mat mL mS pers cont multi), spanGtB r mL = true)
    ∧ okMatrixPart (mkRegions contig mat mL mS pers cont multi)
        = okMatrixPart (mkRegions contig mat mL' mS pers cont multi) := by
  constructor
  · intro r hr
    rcases mkRegionsAux_span contig mL mS pers cont multi _ mat [] r hr with h | h
    · simp at h
    · exact h
  · exact mkRegionsAux_matrix_indep contig mS pers cont multi _ mat mL mL' [] []

/-- C6 witness: the scenario-A region of score 10 is returned and indeed
satisfies the span test. -/
theorem c6_witness :
    regA5 ∈ okRegions (mkRegions contigA matA5 0 4 3 5 []) ∧ spanGtB regA5 0 = true :=
  ⟨by decide, (c6_span_filter contigA matA5 0 0 4 3 5 []).1 regA5 (by decide)⟩

theorem countState1_set : ∀ (mat : List MatriceNode) (i : Nat) (a n : MatriceNode),
    mat[i]? = some n →
    countState1 (mat.set i a) + (if n.state then 1 else 0)
      = countState1 mat + (if a.state then 1 else 0) := by
  intro mat
  induction mat with
  | nil => intro i a n h; simp at h
  | cons m ms ih =>
    intro i a n h
    cases i with
    | zero =>
      simp only [List.getElem?_cons_zero, Option.some_inj] at h
      subst h
      simp only [List.set_cons_zero, countState1]
      omega
    | succ i =>
      simp only [List.getElem?_cons_succ] at h
      simp only [List.set_cons_succ, countState1]
      have := ih i a n h
      omega

theorem extractAux_count_le : ∀ (fuel : Nat) (mat : List MatriceNode) (o : Option Nat),
    countState1 (extractRGPAux fuel mat o).2 ≤ countState1 mat := by
  intro fuel
  induction fuel with
  | zero => intro mat o; exact Nat.le_refl _
  | succ fuel ih =>
    intro mat o
    cases o with
    | none => exact Nat.le_refl _
    | some idx =>
      rw [extractRGPAux]
      cases hc : mat[idx]? with
      | none => exact Nat.le_refl _
      | some node =>
        by_cases hstate : node.state = true
        · simp only [hstate, if_true]
          have hset := countState1_set mat idx { node with state := false, score := 0 } node hc
          simp [hstate] at hset
          have hrec := ih (mat.set idx { node with state := false, score := 0 }) node.prev
          omega
        · simp only [hstate, if_false]
          exact Nat.le_refl _

theorem extractAux_count_lt (fuel : Nat) (mat : List MatriceNode) (idx : Nat)
    (node : MatriceNode) (hc : mat[idx]? = some node) (hstate : node.state = true) :
    countState1 (extractRGPAux (fuel + 1) mat (some idx)).2 < countState1 mat := by
  rw [extractRGPAux]
  simp only [hc, hstate, if_true]
  have hset := countState1_set mat idx { node with state := false, score := 0 } node hc
  simp [hstate] at hset
  have hrec := extractAux_count_le fuel (mat.set idx { node with state := false, score := 0 }) node.prev
  omega

theorem countState1_set_le (mat : List MatriceNode) (i : Nat) (a n : MatriceNode)
    (hc : mat[i]? = some n) (hn : n.state = true) :
    countState1 (mat.set i a) ≤ countState1 mat := by
  have hset := countState1_set mat i a n hc
  have hb : (if a.state then 1 else 0) ≤ 1 := by split <;> omega
  simp [hn] at hset
  omega

theorem rewriteLoop_count_le (pp vg : Int) (multi : List GeneFamily) (circular : Bool)
    (len : Nat) : ∀ (fuel index : Nat) (prevScore : Int) (nbPerc : Nat)
    (mat : List MatriceNode),
    countState1 (rewriteLoop pp vg multi circular len fuel index prevScore nbPerc mat)
      ≤ countState1 mat := by
  intro fuel
  induction fuel with
  | zero => intro idx ps nb mat; exact Nat.le_refl _
  | succ fuel ih =>
    intro idx ps nb mat
    rw [rewriteLoop]
    cases hc : mat[idx]? with
    | none => exact Nat.le_refl _
    | some nextNode =>
      by_cases hstate : nextNode.state = true
      · simp only [hstate, if_true]
        split
        · split
          · exact Nat.le_trans (ih _ _ _ _) (countState1_set_le mat idx _ nextNode hc hstate)
          · exact countState1_set_le mat idx _ nextNode hc hstate
        · exact Nat.le_trans (ih _ _ _ _) (countState1_set_le mat idx _ nextNode hc hstate)
      · simp only [hstate, if_false]
        exact Nat.le_refl _

theorem getD_of_getElem {mat : List MatriceNode} {j : Nat} {n : MatriceNode}
    (h : mat[j]? = some n) : mat.getD j dummyNode = n := by
  rw [List.getD_eq_getElem?_getD, h]
  rfl

theorem getD_mem_of_lt {mat : List MatriceNode} {i : Nat} (h : i < mat.length) :
    mat.getD i dummyNode ∈ mat := by
  rw [List.getD_eq_getElem?_getD, List.getElem?_eq_getElem h]
  exact List.getElem_mem h

theorem getD_set_ne (mat : List MatriceNode) {i j : Nat} (a : MatriceNode) (h : i ≠ j) :
    (mat.set i a).getD j dummyNode = mat.getD j dummyNode := by
  rw [List.getD_eq_getElem?_getD, List.getD_eq_getElem?_getD, List.getElem?_set_ne h]

theorem rewriteLoop_keeps_false (pp vg : Int) (multi : List GeneFamily) (circular : Bool)
    (len : Nat) : ∀ (fuel index : Nat) (prevScore : Int) (nbPerc : Nat)
    (mat : List MatriceNode) (j : Nat), (mat.getD j dummyNode).state = false →
    ((rewriteLoop pp vg multi circular len fuel index prevScore nbPerc mat).getD j
      dummyNode).state = false := by
  intro fuel
  induction fuel with
  | zero => intro idx ps nb mat j h; exact h
  | succ fuel ih =>
    intro idx ps nb mat j h
    rw [rewriteLoop]
    cases hc : mat[idx]? with
    | none => exact h
    | some nextNode =>
      by_cases hstate : nextNode.state = true
      · simp only [hstate, if_true]
        have hij : idx ≠ j := by
          intro e
          subst e
          rw [getD_of_getElem hc] at h
          rw [h] at hstate
          cases hstate
        have h' : ∀ a : MatriceNode, ((mat.set idx a).getD j dummyNode).state = false := by
          intro a
          rw [getD_set_ne mat a hij]
          exact h
        split
        · split
          · exact ih _ _ _ _ _ (h' _)
          · exact h' _
        · exact ih _ _ _ _ _ (h' _)
      · simp only [hstate, if_false]
        exact h

theorem rewriteMatrix_count_le (contig : Contig) (mat : List MatriceNode) (index : Nat)
    (pers cont : Int) (multi : List GeneFamily) :
    countState1 (rewriteMatrix contig mat index pers cont multi) ≤ countState1 mat := by
  unfold rewriteMatrix
  split
  · exact Nat.le_refl _
  · split
    · exact rewriteLoop_count_le _ _ _ _ _ _ _ _ _ _
    · exact Nat.le_refl _

theorem rewriteMatrix_keeps_false (contig : Contig) (mat : List MatriceNode) (index : Nat)
    (pers cont : Int) (multi : List GeneFamily) (j : Nat)
    (h : (mat.getD j dummyNode).state = false) :
    ((rewriteMatrix contig mat index pers cont multi).getD j dummyNode).state = false := by
  unfold rewriteMatrix
  split
  · exact h
  · split
    · exact rewriteLoop_keeps_false _ _ _ _ _ _ _ _ _ _ _ h
    · exact h

theorem maxIndexAux_spec : ∀ (l : List MatriceNode) (i : Nat) (bs : Int) (bi : Nat),
    maxIndexAux l i bs bi = (bs, bi)
    ∨ ∃ k, k < l.length ∧ maxIndexAux l i bs bi = ((l.getD k dummyNode).score, i + k) := by
  intro l
  induction l with
  | nil => intro i bs bi; exact Or.inl rfl
  | cons n rest ih =>
    intro i bs bi
    rw [maxIndexAux]
    by_cases h : n.score ≥ bs
    · rw [if_pos h]
      rcases ih (i + 1) n.score i with h1 | ⟨k, hk, h1⟩
      · right
        refine ⟨0, by simp, ?_⟩
        rw [h1]
        simp
      · right
        refine ⟨k + 1, by simpa using hk, ?_⟩
        rw [h1]
        simp only [List.getD_cons_succ, Prod.mk.injEq]
        exact ⟨trivial, by omega⟩
    · rw [if_neg h]
      rcases ih (i + 1) bs bi with h1 | ⟨k, hk, h1⟩
      · exact Or.inl h1
      · right
        refine ⟨k + 1, by simpa using hk, ?_⟩
        rw [h1]
        simp only [List.getD_cons_succ, Prod.mk.injEq]
        exact ⟨trivial, by omega⟩

theorem maxIndexNode_spec (mat : List MatriceNode) (hne : mat ≠ []) :
    (maxIndexNode mat).2 < mat.length
    ∧ (mat.getD (maxIndexNode mat).2 dummyNode).score = (maxIndexNode mat).1 := by
  cases mat with
  | nil => exact absurd rfl hne
  | cons n0 rest =>
    rw [maxIndexNode]
    rcases maxIndexAux_spec (n0 :: rest) 0 n0.score 0 with h | ⟨k, hk, h⟩
    · rw [h]
      exact ⟨by simp, by simp⟩
    · rw [h]
      refine ⟨by simpa using hk, by simp⟩

theorem scoreStateWF_set {mat : List MatriceNode} {i : Nat} {a : MatriceNode}
    (h : scoreStateWF mat) (ha : 0 < a.score → a.state = true) :
    scoreStateWF (mat.set i a) :=
  fun n hn => (List.mem_or_eq_of_mem_set hn).elim (h n) (fun e => e ▸ ha)

theorem make_WF (cs : Int) (p : Option Nat) (g : Gene) :
    0 < (MatriceNode.make (decide (cs ≥ 0)) cs p g).score →
    (MatriceNode.make (decide (cs ≥ 0)) cs p g).state = true := by
  show 0 < (if cs > 0 then cs else 0) → decide (cs ≥ 0) = true
  intro h
  rw [decide_eq_true_eq]
  split at h <;> omega

theorem changes_WF (n : MatriceNode) (s : Bool) (cs : Int) :
    0 < (n.changes s cs).score → (n.changes s cs).state = true := by
  show 0 < (if cs ≥ 0 then cs else 0) → decide (cs ≥ 0) = true
  intro h
  rw [decide_eq_true_eq]
  split at h <;> omega

theorem initPassAux_WF (pp vg : Int) (multi : List GeneFamily)
    (genes : List Gene) : ∀ (prev : Option (Nat × Int)) (nbPerc idx : Nat),
    scoreStateWF (initPassAux pp vg multi genes prev nbPerc idx) := by
  induction genes with
  | nil => intro prev nb idx n hn; simp [initPassAux] at hn
  | cons g rest ih =>
    intro prev nb idx n hn
    simp only [initPassAux, List.mem_cons] at hn
    rcases hn with h | h
    · subst h; exact make_WF _ _ _
    · exact ih _ _ _ n h

theorem wrapLoop_WF (pp vg : Int) (multi : List GeneFamily) (lastScore : Int) :
    ∀ (fuel c nbPerc : Nat) (mat : List MatriceNode), scoreStateWF mat →
      scoreStateWF (wrapLoop pp vg multi lastScore fuel c nbPerc mat).1 := by
  intro fuel
  induction fuel with
  | zero => intro c nb mat h; exact h
  | succ fuel ih =>
    intro c nb mat h
    rw [wrapLoop]
    split
    · exact h
    · cases hc : mat[c]? with
      | none => simpa only [hc] using h
      | some matNode =>
        simp only [hc]
        split
        · exact ih _ _ _ (scoreStateWF_set h (changes_WF _ _ _))
        · exact scoreStateWF_set h (changes_WF _ _ _)

theorem initMatrices_WF (contig : Contig) (pp vg : Int) (multi : List GeneFamily) :
    scoreStateWF (initMatrices contig pp vg multi) := by
  have hbase := initPassAux_WF pp vg multi contig.genes none 0 0
  simp only [initMatrices]
  split
  · exact hbase
  · split
    · apply wrapLoop_WF
      split
      · exact hbase
      · rename_i n0 rest hM
        have hbase' : scoreStateWF (n0 :: rest) := hM ▸ hbase
        intro n hn
        rcases List.mem_cons.mp hn with h | h
        · subst h
          exact hbase' n0 (List.mem_cons_self n0 rest)
        · exact hbase' n (List.mem_cons.mpr (Or.inr h))
    · exact hbase

theorem extractAux_WF : ∀ (fuel : Nat) (mat : List MatriceNode) (o : Option Nat),
    scoreStateWF mat → scoreStateWF (extractRGPAux fuel mat o).2 := by
  intro fuel
  induction fuel with
  | zero => intro mat o h; exact h
  | succ fuel ih =>
    intro mat o h
    cases o with
    | none => exact h
    | some idx =>
      rw [extractRGPAux]
      cases hc : mat[idx]? with
      | none => simpa only [hc] using h
      | some node =>
        simp only [hc]
        split
        · exact ih _ _ (scoreStateWF_set h (fun hp => absurd hp (lt_irrefl 0)))
        · exact h

theorem rewriteLoop_WF (pp vg : Int) (multi : List GeneFamily) (circular : Bool)
    (len : Nat) : ∀ (fuel index : Nat) (prevScore : Int) (nbPerc : Nat)
    (mat : List MatriceNode), scoreStateWF mat →
    scoreStateWF (rewriteLoop pp vg multi circular len fuel index prevScore nbPerc mat) := by
  intro fuel
  induction fuel with
  | zero => intro idx ps nb mat h; exact h
  | succ fuel ih =>
    intro idx ps nb mat h
    rw [rewriteLoop]
    cases hc : mat[idx]? with
    | none => simpa only [hc] using h
    | some nextNode =>
      simp only [hc]
      split
      · split
        · split
          · exact ih _ _ _ _ (scoreStateWF_set h (changes_WF _ _ _))
          · exact scoreStateWF_set h (changes_WF _ _ _)
        · exact ih _ _ _ _ (scoreStateWF_set h (changes_WF _ _ _))
      · exact h

theorem extractRGP_WF (contig : Contig) (mat : List MatriceNode) (index rid : Nat)
    (h : scoreStateWF mat) : scoreStateWF (extractRGP contig mat index rid).2 :=
  extractAux_WF _ _ _ h

theorem rewriteMatrix_WF (contig : Contig) (mat : List MatriceNode) (index : Nat)
    (pers cont : Int) (multi : List GeneFamily) (h : scoreStateWF mat) :
    scoreStateWF (rewriteMatrix contig mat index pers cont multi) := by
  unfold rewriteMatrix
  split
  · exact h
  · split
    · exact rewriteLoop_WF _ _ _ _ _ _ _ _ _ _ h
    · exact h

theorem extractAux_cons (fuel : Nat) (mat : List MatriceNode) (idx : Nat)
    (node : MatriceNode) (hc : mat[idx]? = some node) (hstate : node.state = true) :
    (extractRGPAux (fuel + 1) mat (some idx)).1
      = node.gene ::
        (extractRGPAux fuel (mat.set idx { node with state := false, score := 0 })
          node.prev).1 := by
  rw [extractRGPAux]
  simp [hc, hstate]

theorem mkRegionsAux_ok (contig : Contig) (mL mS pers cont : Int)
    (multi : List GeneFamily) (hMS : 1 ≤ mS) :
    ∀ (fuel : Nat) (mat : List MatriceNode) (acc : List Region),
    scoreStateWF mat → countState1 mat < fuel →
    ∃ out, mkRegionsAux contig mL mS pers cont multi fuel mat acc = Except.ok out := by
  intro fuel
  induction fuel with
  | zero => intro mat acc _ hcount; exact absurd hcount (Nat.not_lt_zero _)
  | succ fuel ih =>
    intro mat acc hwf hcount
    rw [mkRegionsAux]
    by_cases h : (maxIndexNode mat).1 ≥ mS
    · simp only [if_pos h]
      have hne : mat ≠ [] := by
        intro e
        subst e
        simp only [maxIndexNode] at h
        omega
      obtain ⟨hlt, hscore⟩ := maxIndexNode_spec mat hne
      have hsome : mat[(maxIndexNode mat).2]? = some (mat.getD (maxIndexNode mat).2 dummyNode) := by
        rw [List.getD_eq_getElem?_getD, List.getElem?_eq_getElem hlt]
        rfl
      have hpos : 0 < (mat.getD (maxIndexNode mat).2 dummyNode).score := by
        rw [hscore]; omega
      have hstate : (mat.getD (maxIndexNode mat).2 dummyNode).state = true :=
        hwf _ (getD_mem_of_lt hlt) hpos
      have hcons := extractAux_cons mat.length mat (maxIndexNode mat).2 _ hsome hstate
      dsimp only [extractRGP]
      rw [hcons]
      apply ih
      · exact rewriteMatrix_WF _ _ _ _ _ _ (extractAux_WF _ _ _ hwf)
      · have h1 := extractAux_count_lt mat.length mat (maxIndexNode mat).2 _ hsome hstate
        have h2 := rewriteMatrix_count_le contig
          (extractRGPAux (mat.length + 1) mat (some (maxIndexNode mat).2)).2
          (maxIndexNode mat).2 pers cont multi
        omega
    · simp only [if_neg h]
      exact ⟨(acc, mat), rfl⟩

/-- C4 counterexample: with `min_score = 0` (a legal parameter value) on the
one-gene persistent contig, the loop condition holds (max score `0 ≥ 0`) yet
the iteration zeroes no node — the selected node has state 0 — so the number
of state-1 nodes does not strictly decrease; the Python loop in fact aborts
with an `IndexError` on `new_region[0]` instead of terminating normally. -/
theorem c4_counterexample :
    (maxIndexNode matP).1 ≥ 0
    ∧ ¬ countState1 (extractAndRewrite contigP matP (maxIndexNode matP).2 0 3 1 []).2
        < countState1 matP
    ∧ mkRegions contigP matP 0 0 3 1 [] = Except.error "IndexError" := by decide

/-- C4 amended: for `min_score ≥ 1` and a score/state-consistent matrix (as
`initMatrices` produces), every iteration of the extraction loop strictly
decreases the number of state-1 nodes, the rewrite step never turns a
state-0 node into state 1, and consequently the loop terminates normally
(fuel `countState1 + 1` returns `ok`). -/
theorem c4_loop_terminates (contig : Contig) (mat : List MatriceNode)
    (mL mS pers cont : Int) (multi : List GeneFamily) (rid : Nat)
    (hwf : scoreStateWF mat) (hMS : 1 ≤ mS) :
    ((maxIndexNode mat).1 ≥ mS →
      countState1 (extractAndRewrite contig mat (maxIndexNode mat).2 rid pers cont multi).2
        < countState1 mat)
    ∧ (∀ index j, (mat.getD j dummyNode).state = false →
        ((rewriteMatrix contig mat index pers cont multi).getD j dummyNode).state = false)
    ∧ ∃ out, mkRegions contig mat mL mS pers cont multi = Except.ok out := by
  refine ⟨?_, ?_, ?_⟩
  · intro h
    have hne : mat ≠ [] := by
      intro e
      subst e
      simp only [maxIndexNode] at h
      omega
    obtain ⟨hlt, hscore⟩ := maxIndexNode_spec mat hne
    have hsome : mat[(maxIndexNode mat).2]? = some (mat.getD (maxIndexNode mat).2 dummyNode) := by
      rw [List.getD_eq_getElem?_getD, List.getElem?_eq_getElem hlt]
      rfl
    have hpos : 0 < (mat.getD (maxIndexNode mat).2 dummyNode).score := by
      rw [hscore]; omega
    have hstate : (mat.getD (maxIndexNode mat).2 dummyNode).state = true :=
      hwf _ (getD_mem_of_lt hlt) hpos
    have h1 := extractAux_count_lt mat.length mat (maxIndexNode mat).2 _ hsome hstate
    have h2 := rewriteMatrix_count_le contig
      (extractRGPAux (mat.length + 1) mat (some (maxIndexNode mat).2)).2
      (maxIndexNode mat).2 pers cont multi
    show countState1 (rewriteMatrix contig
      (extractRGPAux (mat.length + 1) mat (some (maxIndexNode mat).2)).2
      (maxIndexNode mat).2 pers cont multi) < countState1 mat
    omega
  · intro index j hj
    exact rewriteMatrix_keeps_false contig mat index pers cont multi j hj
  · exact mkRegionsAux_ok contig mL mS pers cont multi hMS _ mat [] hwf (Nat.lt_succ_self _)

/-- C4 witness: the termination statement applied to the scenario-A matrix
with `variable_gain = 5` and `min_score = 4`. -/
theorem c4_witness :
    scoreStateWF matA5 ∧ (1 : Int) ≤ 4
    ∧ ∃ out, mkRegions contigA matA5 0 4 3 5 [] = Except.ok out :=
  ⟨by decide, by decide,
   (c4_loop_terminates contigA matA5 0 4 3 5 [] 0 (by decide) (by decide)).2.2⟩

theorem initPassAux_length (pp vg : Int) (multi : List GeneFamily) :
    ∀ (genes : List Gene) (prev : Option (Nat × Int)) (nbPerc idx : Nat),
    (initPassAux pp vg multi genes prev nbPerc idx).length = genes.length := by
  intro genes
  induction genes with
  | nil => intro prev nb idx; rfl
  | cons g rest ih =>
    intro prev nb idx
    simp only [initPassAux, List.length_cons, ih]

theorem initPassAux_prev (pp vg : Int) (multi : List GeneFamily) :
    ∀ (genes : List Gene) (prev : Option (Nat × Int)) (nbPerc idx k : Nat),
    k < genes.length →
    ((initPassAux pp vg multi genes prev nbPerc idx).getD k dummyNode).prev
      = if k = 0 then prev.map Prod.fst else some (idx + k - 1) := by
  intro genes
  induction genes with
  | nil => intro prev nb idx k h; simp at h
  | cons g rest ih =>
    intro prev nb idx k h
    cases k with
    | zero => simp [initPassAux, MatriceNode.make]
    | succ k =>
      have hk : k < rest.length := by simpa using h
      simp only [initPassAux, List.getD_cons_succ]
      rw [ih _ _ _ k hk]
      by_cases hk0 : k = 0
      · subst hk0
        simp
      · rw [if_neg hk0, if_neg (Nat.succ_ne_zero k)]
        congr 1
        omega

theorem initPassAux_gene (pp vg : Int) (multi : List GeneFamily) :
    ∀ (genes : List Gene) (prev : Option (Nat × Int)) (nbPerc idx k : Nat),
    k < genes.length →
    ((initPassAux pp vg multi genes prev nbPerc idx).getD k dummyNode).gene
      = genes.getD k dummyGene := by
  intro genes
  induction genes with
  | nil => intro prev nb idx k h; simp at h
  | cons g rest ih =>
    intro prev nb idx k h
    cases k with
    | zero => simp [initPassAux, MatriceNode.make]
    | succ k =>
      have hk : k < rest.length := by simpa using h
      simp only [initPassAux, List.getD_cons_succ]
      exact ih _ _ _ k hk

theorem initMatrices_linear (contig : Contig) (pp vg : Int) (multi : List GeneFamily)
    (hlin : contig.is_circular = false) :
    initMatrices contig pp vg multi = initPassAux pp vg multi contig.genes none 0 0 := by
  simp only [initMatrices]
  split
  · rfl
  · rw [hlin]
    simp

theorem initMatrices_linearChain (contig : Contig) (pp vg : Int)
    (multi : List GeneFamily) (hlin : contig.is_circular = false) :
    linearChain (initMatrices contig pp vg multi) := by
  rw [initMatrices_linear contig pp vg multi hlin]
  intro i hi
  rw [initPassAux_length] at hi
  rw [initPassAux_prev pp vg multi contig.genes none 0 0 i hi]
  by_cases h0 : i = 0
  · simp [h0]
  · simp [h0]

theorem initMatrices_posIndexed (contig : Contig) (pp vg : Int)
    (multi : List GeneFamily) (hlin : contig.is_circular = false)
    (hpos : posGenes contig) : posIndexed (initMatrices contig pp vg multi) := by
  rw [initMatrices_linear contig pp vg multi hlin]
  intro i hi
  rw [initPassAux_length] at hi
  rw [initPassAux_gene pp vg multi contig.genes none 0 0 i hi]
  exact hpos i hi

theorem linearChain_set {mat : List MatriceNode} {i : Nat} {node a : MatriceNode}
    (h : linearChain mat) (hc : mat[i]? = some node) (hprev : a.prev = node.prev) :
    linearChain (mat.set i a) := by
  intro j hj
  rw [List.length_set] at hj
  by_cases hij : i = j
  · subst hij
    have hlt : i < mat.length := hj
    rw [List.getD_eq_getElem?_getD, List.getElem?_set_eq_of_lt a hlt]
    show a.prev = _
    rw [hprev, ← getD_of_getElem hc]
    exact h i hlt
  · rw [getD_set_ne mat a hij]
    exact h j hj

theorem posIndexed_set {mat : List MatriceNode} {i : Nat} {node a : MatriceNode}
    (h : posIndexed mat) (hc : mat[i]? = some node) (hgene : a.gene = node.gene) :
    posIndexed (mat.set i a) := by
  intro j hj
  rw [List.length_set] at hj
  by_cases hij : i = j
  · subst hij
    have hlt : i < mat.length := hj
    rw [List.getD_eq_getElem?_getD, List.getElem?_set_eq_of_lt a hlt]
    show a.gene.position = _
    rw [hgene, ← getD_of_getElem hc]
    exact h i hlt
  · rw [getD_set_ne mat a hij]
    exact h j hj

theorem extractAux_none : ∀ (fuel : Nat) (mat : List MatriceNode),
    extractRGPAux fuel mat none = ([], mat) := by
  intro fuel mat
  cases fuel <;> rfl

theorem extractAux_descending : ∀ (fuel : Nat) (mat : List MatriceNode) (idx : Nat),
    linearChain mat → posIndexed mat →
    descendingPositions (extractRGPAux fuel mat (some idx)).1
    ∧ ∀ g ∈ (extractRGPAux fuel mat (some idx)).1, g.position ≤ idx := by
  intro fuel
  induction fuel with
  | zero =>
    intro mat idx _ _
    exact ⟨List.chain'_nil, fun g hg => absurd hg (List.not_mem_nil g)⟩
  | succ fuel ih =>
    intro mat idx hlin hpos
    rw [extractRGPAux]
    cases hc : mat[idx]? with
    | none => exact ⟨List.chain'_nil, fun g hg => absurd hg (List.not_mem_nil g)⟩
    | some node =>
      by_cases hstate : node.state = true
      · simp only [hstate, if_true]
        have hidx : idx < mat.length := by
          by_contra hge
          rw [List.getElem?_eq_none (Nat.le_of_not_lt hge)] at hc
          cases hc
        have hlin' : linearChain (mat.set idx { node with state := false, score := 0 }) :=
          linearChain_set hlin hc rfl
        have hpos' : posIndexed (mat.set idx { node with state := false, score := 0 }) :=
          posIndexed_set hpos hc rfl
        have hprev : node.prev = if idx = 0 then none else some (idx - 1) := by
          rw [← getD_of_getElem hc]
          exact hlin idx hidx
        have hgene : node.gene.position = idx := by
          rw [← getD_of_getElem hc]
          exact hpos idx hidx
        by_cases hidx0 : idx = 0
        · subst hidx0
          rw [if_pos rfl] at hprev
          rw [hprev, extractAux_none]
          refine ⟨?_, ?_⟩
          · exact List.chain'_singleton _
          · intro g hg
            rcases List.mem_singleton.mp (by simpa using hg) with rfl
            rw [hgene]
        · rw [if_neg hidx0] at hprev
          rw [hprev]
          rw [hprev] at hlin' hpos'
          obtain ⟨hchain, hle⟩ := ih
            (mat.set idx { state := false, score := 0, prev := some (idx - 1), gene := node.gene })
            (idx - 1) hlin' hpos'
          refine ⟨?_, ?_⟩
          · apply List.chain'_cons'.mpr
            refine ⟨?_, hchain⟩
            intro h hh
            have hmem := List.mem_of_mem_head? hh
            have := hle h hmem
            rw [hgene]
            omega
          · intro g hg
            rcases List.mem_cons.mp hg with rfl | hg
            · rw [hgene]
            · have := hle g hg
              omega
      · simp only [hstate, if_false]
        exact ⟨List.chain'_nil, fun g hg => absurd hg (List.not_mem_nil g)⟩

/-- C5 counterexample: the candidate region extracted in scenario A (gain 5)
lists its genes at positions `[4, 3]` — newest first, not in ascending
genomic position: `extractRGP` performs no reversal. -/
theorem c5_counterexample :
    (extractRGP contigA matA5 4 0).1.genes.map Gene.position = [4, 3]
    ∧ ¬ ascendingPositions (extractRGP contigA matA5 4 0).1.genes := by decide

/-- C5 amended: every candidate region produced by the backward extraction
walk on a linear contig lists its genes in strictly descending genomic
position (newest gene first) — the walk order, with no reversal:
`initMatrices` on a linear contig yields the index back-link chain and
position indexing, and extraction under those invariants is descending. -/
theorem c5_descending :
    (∀ (contig : Contig) (pp vg : Int) (multi : List GeneFamily),
        contig.is_circular = false → posGenes contig →
        linearChain (initMatrices contig pp vg multi)
        ∧ posIndexed (initMatrices contig pp vg multi))
    ∧ (∀ (contig : Contig) (mat : List MatriceNode) (index rid : Nat),
        linearChain mat → posIndexed mat →
        descendingPositions (extractRGP contig mat index rid).1.genes) := by
  constructor
  · intro contig pp vg multi hlin hpos
    exact ⟨initMatrices_linearChain contig pp vg multi hlin,
           initMatrices_posIndexed contig pp vg multi hlin hpos⟩
  · intro contig mat index rid hlin hpos
    exact (extractAux_descending (mat.length + 1) mat index hlin hpos).1

/-- C5 witness: the extraction-order statement applied to the scenario-A
matrix with gain 5 at index 4. -/
theorem c5_witness :
    posGenes contigA ∧ linearChain matA5 ∧ posIndexed matA5
    ∧ descendingPositions (extractRGP contigA matA5 4 0).1.genes :=
  ⟨by decide, by decide, by decide,
   c5_descending.2 contigA matA5 4 0 (by decide) (by decide)⟩

theorem mkRegions_ok (contig : Contig) (mat : List MatriceNode) (mL mS pers cont : Int)
    (multi : List GeneFamily) (hwf : scoreStateWF mat) (hMS : 1 ≤ mS) :
    ∃ out, mkRegions contig mat mL mS pers cont multi = Except.ok out :=
  mkRegionsAux_ok contig mL mS pers cont multi hMS _ mat [] hwf (Nat.lt_succ_self _)

theorem compute_org_rgp_ok (org : Organism) (pp vg mL mS : Int) (multi : List GeneFamily)
    (hMS : 1 ≤ mS) : ∃ rs, compute_org_rgp org pp vg mL mS multi = Except.ok rs := by
  unfold compute_org_rgp
  have main : ∀ (contigs : List Contig) (acc : List Region),
      ∃ rs, List.foldlM (fun acc contig =>
        if contig.genes.length ≠ 0 then
          match mkRegions contig (initMatrices contig pp vg multi) mL mS pp vg multi with
          | Except.ok rm => Except.ok (acc ++ rm.1)
          | Except.error e => Except.error e
        else Except.ok acc) acc contigs = Except.ok rs := by
    intro contigs
    induction contigs with
    | nil => intro acc; exact ⟨acc, rfl⟩
    | cons c cs ih =>
      intro acc
      rw [List.foldlM_cons]
      by_cases hz : c.genes.length ≠ 0
      · obtain ⟨out, hout⟩ := mkRegions_ok c (initMatrices c pp vg multi) mL mS pp vg multi
          (initMatrices_WF c pp vg multi) hMS
        rw [if_pos hz, hout]
        obtain ⟨rs, hrs⟩ := ih (acc ++ out.1)
        exact ⟨rs, hrs⟩
      · rw [if_neg hz]
        obtain ⟨rs, hrs⟩ := ih acc
        exact ⟨rs, hrs⟩
  exact main org.contigs []

theorem checkParameterLogic_error_iff (om ss em : Nat) :
    (om ≥ ss ∨ em > ss) ↔ ∃ msg, checkParameterLogic om ss em = Except.error msg := by
  unfold checkParameterLogic
  constructor
  · intro h
    by_cases h1 : om ≥ ss
    · exact ⟨_, by rw [if_pos h1]⟩
    · have h2 : em > ss := h.resolve_left h1
      exact ⟨_, by rw [if_neg h1, if_pos h2]⟩
  · rintro ⟨msg, hmsg⟩
    by_cases h1 : om ≥ ss
    · exact Or.inl h1
    · by_cases h2 : em > ss
      · exact Or.inr h2
      · rw [if_neg h1, if_neg h2] at hmsg
        cases hmsg

theorem predictRGP_ok_of_valid (p : Pangenome) (pp vg mL mS : Int) (dm : Rat)
    (om ss em : Nat) (hom : om < ss) (hem : em ≤ ss) (hMS : 1 ≤ mS) :
    ∃ q, predictRGP p pp vg mL mS dm om ss em = Except.ok q := by
  unfold predictRGP
  have hc : checkParameterLogic om ss em = Except.ok () := by
    unfold checkParameterLogic
    rw [if_neg (by omega), if_neg (by omega)]
  rw [hc]
  have main : ∀ (orgs : List Organism) (acc : List Region),
      ∃ rs, List.foldlM (fun acc org =>
        match compute_org_rgp org pp vg mL mS (get_multigenics p dm) with
        | Except.ok rs => Except.ok (acc ++ rs)
        | Except.error e => Except.error e) acc orgs = Except.ok rs := by
    intro orgs
    induction orgs with
    | nil => intro acc; exact ⟨acc, rfl⟩
    | cons o os ih =>
      intro acc
      rw [List.foldlM_cons]
      obtain ⟨rs0, hrs0⟩ := compute_org_rgp_ok o pp vg mL mS (get_multigenics p dm) hMS
      rw [hrs0]
      obtain ⟨rs, hrs⟩ := ih (acc ++ rs0)
      exact ⟨rs, hrs⟩
  obtain ⟨rs, hrs⟩ := main p.organisms []
  dsimp only
  rw [hrs]
  exact ⟨_, rfl⟩

/-- C8 counterexample: with valid hotspot parameters (`om = 2 < ss = 3`,
`em = 1 ≤ 3`) but `min_score = 0`, the entry point still fails — extraction
reaches an empty candidate and raises `IndexError` — so failure is not
equivalent to the parameter-logic violation over all parameter settings. -/
theorem c8_counterexample :
    ¬ ((2 : Nat) ≥ 3 ∨ (1 : Nat) > 3)
    ∧ predictRGP pEx 3 1 0 0 (1 / 20 : Rat) 2 3 1 = Except.error "IndexError" := by decide

/-- C8 amended: for `min_score ≥ 1`, the RGP prediction entry point fails
exactly when `overlapping_match ≥ set_size` or `exact_match > set_size`;
the validation runs first, so on violation the result is the validation
error alone and is identical for every pangenome — no computation touches
the pangenome. -/
theorem c8_param_check (p : Pangenome) (pp vg mL mS : Int) (dm : Rat) (om ss em : Nat)
    (hMS : 1 ≤ mS) :
    ((om ≥ ss ∨ em > ss) ↔ ∃ msg, predictRGP p pp vg mL mS dm om ss em = Except.error msg)
    ∧ (∀ q : Pangenome, (om ≥ ss ∨ em > ss) →
        predictRGP p pp vg mL mS dm om ss em = predictRGP q pp vg mL mS dm om ss em) := by
  constructor
  · constructor
    · intro hcond
      obtain ⟨msg, hmsg⟩ := (checkParameterLogic_error_iff om ss em).mp hcond
      refine ⟨msg, ?_⟩
      unfold predictRGP
      rw [hmsg]
    · rintro ⟨msg, hmsg⟩
      by_contra hcond
      push_neg at hcond
      obtain ⟨q, hq⟩ := predictRGP_ok_of_valid p pp vg mL mS dm om ss em
        (by omega) (by omega) hMS
      rw [hq] at hmsg
      cases hmsg
  · intro q hcond
    obtain ⟨msg, hmsg⟩ := (checkParameterLogic_error_iff om ss em).mp hcond
    unfold predictRGP
    rw [hmsg]

/-- C8 witness: the equivalence applied at `om = ss = 3` with `min_score
= 4`: the violated precondition corresponds to a failing run. -/
theorem c8_witness :
    (1 : Int) ≤ 4
    ∧ (((3 : Nat) ≥ 3 ∨ (1 : Nat) > 3)
        ↔ ∃ msg, predictRGP pEx 3 1 0 4 (1 / 20 : Rat) 3 3 1 = Except.error msg) :=
  ⟨by decide, (c8_param_check pEx 3 1 0 4 (1 / 20 : Rat) 3 3 1 (by decide)).1⟩

/-- C9 counterexample: two spots whose single borders are `{fam1, fam2}` and
`{fam1, fam3}` share the family `fam1` — their border-gene-family sets (in
the spec's sense) intersect — yet `makeFlanking` produces no edge, because
the code intersects sets of whole border family-sets (frozensets), not sets
of families. -/
theorem c9_counterexample :
    fam1 ∈ spotFamilyUnion spotX.1
    ∧ fam1 ∈ spotFamilyUnion spotY.1
    ∧ (makeFlanking [spotX, spotY]).edges = [] := by decide

/-- C9 amended: in the flanking graph, for `i < j`, an edge `(i, j, w)` is
present if and only if the two spots share at least one whole border
family-set (the intersection of their sets of per-border frozensets is
non-empty), and its weight `w` is the number of shared border family-sets. -/
theorem c9_flanking_edges (spots : List (List (List GeneFamily × List GeneFamily) × List Region))
    (i j w : Nat) :
    (i, j, w) ∈ (makeFlanking spots).edges
      ↔ i < j ∧ j < (makeFlanking spots).nodes.length
          ∧ w = flankInter (makeFlanking spots).nodes i j ∧ w ≠ 0 := by
  unfold makeFlanking
  dsimp only
  set nodes := List.map (fun sp =>
      ({ nb_rgp := sp.2.length, nb_organisations := (getUniqRGP sp.2).length,
         borders := spotBordersSet sp.1 } : FlankNode)) spots with hnodes
  rw [List.mem_flatMap]
  constructor
  · rintro ⟨a, ha, hmem⟩
    rw [List.mem_range] at ha
    rw [List.mem_filterMap] at hmem
    obtain ⟨b, hb, hsome⟩ := hmem
    rw [List.mem_range'_1] at hb
    split at hsome
    · rename_i hinter
      have h := Option.some.inj hsome
      have h1 : a = i := congrArg Prod.fst h
      have h2 : b = j := congrArg (fun p => p.2.1) h
      have h3 : flankInter nodes a b = w := congrArg (fun p => p.2.2) h
      subst h1
      subst h2
      subst h3
      exact ⟨by omega, by omega, rfl, hinter⟩
    · cases hsome
  · rintro ⟨hij, hjlen, hw, hw0⟩
    refine ⟨i, ?_, ?_⟩
    · rw [List.mem_range]
      omega
    · rw [List.mem_filterMap]
      refine ⟨j, ?_, ?_⟩
      · rw [List.mem_range'_1]
        omega
      · rw [hw] at hw0 ⊢
        rw [if_pos hw0]

theorem compBorder_em0 (b1 b2 : List GeneFamily) (om ss : Nat) :
    compBorder b1 b2 om 0 ss = true := by
  unfold compBorder
  rw [if_pos (show b1.take 0 = b2.take 0 by simp)]

theorem checkSim_em0 (kb0 kb1 b0 b1 : List GeneFamily) (om ss : Nat) :
    checkSim kb0 kb1 b0 b1 om 0 ss = true := by
  unfold checkSim
  simp [compBorder_em0]

theorem spotEdge_em0 (nodes : List SpotNode) (om ss : Nat) {u v : Nat}
    (hu : u < nodes.length) (hv : v < nodes.length) (huv : u ≠ v) :
    spotEdge nodes om 0 ss u v = true := by
  unfold spotEdge
  have hmin : min u v < nodes.length := by omega
  have hmax : max u v < nodes.length := by omega
  rw [List.getElem?_eq_getElem hmin, List.getElem?_eq_getElem hmax]
  simp [checkSim_em0]
  omega

theorem buildComponents_collapse (adj : Nat → Nat → Bool) (P : Nat → Prop)
    (hadj : ∀ v u, P v → P u → v ≠ u → (adj v u || adj u v) = true) :
    ∀ (vs : List Nat) (comps : List (List Nat)),
      (∀ v ∈ vs, P v) → vs.Nodup →
      (∀ c ∈ comps, c ≠ [] ∧ ∀ x ∈ c, P x ∧ x ∉ vs) →
      comps.length ≤ 1 →
      (buildComponents adj vs comps).length ≤ 1
      ∧ ∀ x, ((∃ c ∈ comps, x ∈ c) ∨ x ∈ vs) →
          ∃ c ∈ buildComponents adj vs comps, x ∈ c := by
  intro vs
  induction vs with
  | nil =>
    intro comps hP hnd hcomps hlen
    rw [buildComponents]
    refine ⟨hlen, ?_⟩
    intro x hx
    rcases hx with ⟨c, hc, hxc⟩ | hx
    · exact ⟨c, hc, hxc⟩
    · exact absurd hx (List.not_mem_nil x)
  | cons v rest ih =>
    intro comps hP hnd hcomps hlen
    rw [buildComponents]
    have hndrest : rest.Nodup := hnd.of_cons
    have hvrest : v ∉ rest := (List.nodup_cons.mp hnd).1
    have hPrest : ∀ u ∈ rest, P u := fun u hu => hP u (List.mem_cons_of_mem v hu)
    cases comps with
    | nil =>
      simp only [List.filter_nil, List.flatten_nil]
      have hinv : ∀ c ∈ [[v]], c ≠ [] ∧ ∀ x ∈ c, P x ∧ x ∉ rest := by
        intro c hc
        rcases List.mem_singleton.mp hc with rfl
        refine ⟨by simp, ?_⟩
        intro x hx
        rcases List.mem_singleton.mp hx with rfl
        exact ⟨hP x (List.mem_cons_self x rest), hvrest⟩
      obtain ⟨hlen1, hmem1⟩ := ih [[v]] hPrest hndrest hinv (by simp)
      refine ⟨hlen1, ?_⟩
      intro x hx
      rcases hx with ⟨c, hc, _⟩ | hx
      · exact absurd hc (List.not_mem_nil c)
      · rcases List.mem_cons.mp hx with rfl | hx
        · exact hmem1 x (Or.inl ⟨[x], List.mem_singleton_self _, List.mem_singleton_self _⟩)
        · exact hmem1 x (Or.inr hx)
    | cons c0 comps' =>
      cases comps' with
      | cons c1 cs => simp at hlen
      | nil =>
        obtain ⟨hc0ne, hc0⟩ := hcomps c0 (List.mem_singleton_self c0)
        obtain ⟨u, hu⟩ := List.exists_mem_of_ne_nil c0 hc0ne
        have hvne : v ≠ u := by
          intro e
          exact (hc0 u hu).2 (e ▸ List.mem_cons_self v rest)
        have htouch : touchesComp adj v c0 = true := by
          unfold touchesComp
          rw [List.any_eq_true]
          exact ⟨u, hu, hadj v u (hP v (List.mem_cons_self v rest)) (hc0 u hu).1 hvne⟩
        have hfilter1 : List.filter (touchesComp adj v) [c0] = [c0] := by
          simp [List.filter, htouch]
        have hfilter2 : List.filter (fun comp => !(touchesComp adj v comp)) [c0] = [] := by
          simp [List.filter, htouch]
        rw [hfilter1, hfilter2]
        have hinv : ∀ c ∈ [v :: [c0].flatten], c ≠ [] ∧ ∀ x ∈ c, P x ∧ x ∉ rest := by
          intro c hc
          rcases List.mem_singleton.mp hc with rfl
          refine ⟨by simp, ?_⟩
          intro x hx
          rcases List.mem_cons.mp hx with rfl | hx
          · exact ⟨hP x (List.mem_cons_self x rest), hvrest⟩
          · have hx0 : x ∈ c0 := by simpa using hx
            refine ⟨(hc0 x hx0).1, ?_⟩
            intro hxr
            exact (hc0 x hx0).2 (List.mem_cons_of_mem v hxr)
        obtain ⟨hlen1, hmem1⟩ := ih [v :: [c0].flatten] hPrest hndrest hinv (by simp)
        refine ⟨hlen1, ?_⟩
        intro x hx
        apply hmem1
        rcases hx with ⟨c, hc, hxc⟩ | hx
        · rcases List.mem_singleton.mp hc with rfl
          refine Or.inl ⟨v :: [c].flatten, List.mem_singleton_self _, ?_⟩
          apply List.mem_cons_of_mem
          simpa using hxc
        · rcases List.mem_cons.mp hx with rfl | hx
          · exact Or.inl ⟨x :: [c0].flatten, List.mem_singleton_self _, List.mem_cons_self _ _⟩
          · exact Or.inr hx

theorem addNewNode_mem (acc : List SpotNode) (rgp : Region) (b0 b1 : List Gene) :
    ∃ nd ∈ addNewNode acc rgp b0 b1, rgp ∈ nd.rgps := by
  unfold addNewNode
  dsimp only
  split
  · rename_i hany
    rw [List.any_eq_true] at hany
    obtain ⟨n, hn, hkey⟩ := hany
    rw [decide_eq_true_eq] at hkey
    refine ⟨{ n with nb_rgp := n.nb_rgp + 1, rgps := n.rgps ++ [rgp] },
      List.mem_map.mpr ⟨n, hn, ?_⟩, ?_⟩
    · rw [if_pos hkey]
    · simp
  · refine ⟨_, List.mem_append_right _ (List.mem_singleton_self _), ?_⟩
    simp

theorem addNewNode_mono (acc : List SpotNode) (rgp : Region) (b0 b1 : List Gene)
    (x : Region) (h : ∃ nd ∈ acc, x ∈ nd.rgps) :
    ∃ nd ∈ addNewNode acc rgp b0 b1, x ∈ nd.rgps := by
  obtain ⟨nd, hnd, hx⟩ := h
  unfold addNewNode
  dsimp only
  split
  · refine ⟨_, List.mem_map_of_mem _ hnd, ?_⟩
    dsimp only
    split
    · simp [hx]
    · exact hx
  · exact ⟨nd, List.mem_append_left _ hnd, hx⟩

theorem spotNodes_mem (borderOf : Region → List Gene × List Gene) (ss : Nat) :
    ∀ (rgps : List Region) (acc : List SpotNode) (r : Region),
    ((∃ nd ∈ acc, r ∈ nd.rgps)
      ∨ (r ∈ rgps ∧ ¬((borderOf r).1.length < ss ∨ (borderOf r).2.length < ss))) →
    ∃ nd ∈ rgps.foldl (fun acc rgp =>
        if (borderOf rgp).1.length < ss || (borderOf rgp).2.length < ss then acc
        else addNewNode acc rgp (borderOf rgp).1 (borderOf rgp).2) acc,
      r ∈ nd.rgps := by
  intro rgps
  induction rgps with
  | nil =>
    intro acc r h
    rcases h with h | ⟨hr, _⟩
    · exact h
    · exact absurd hr (List.not_mem_nil r)
  | cons g gs ih =>
    intro acc r h
    rw [List.foldl_cons]
    rcases h with h | ⟨hr, hkeep⟩
    · apply ih
      left
      by_cases hcond : ((borderOf g).1.length < ss || (borderOf g).2.length < ss) = true
      · rw [if_pos hcond]
        exact h
      · rw [if_neg hcond]
        exact addNewNode_mono _ _ _ _ r h
    · rcases List.mem_cons.mp hr with rfl | hr
      · have hcond : ¬ (((borderOf r).1.length < ss || (borderOf r).2.length < ss) = true) := by
          simp only [Bool.or_eq_true, decide_eq_true_eq]
          exact hkeep
        rw [if_neg hcond]
        apply ih
        left
        exact addNewNode_mem acc r (borderOf r).1 (borderOf r).2
      · apply ih
        right
        exact ⟨hr, hkeep⟩

/-- C10: with `exact_match = 0` — accepted by the parameter validation
whenever `overlapping_match < set_size`, since the exact-match check only
rejects `exact_match > set_size` — `compBorder` returns true on every pair
of borders (the empty prefixes compare equal), hence every pair of
signature nodes is linked, the spot graph has at most one connected
component, and every retained region (borders of full size on both sides)
lands in that single spot. -/
theorem c10_exact_match_zero (rgps : List Region)
    (borderOf : Region → List Gene × List Gene) (om ss : Nat) :
    (checkParameterLogic om ss 0 = Except.ok () ↔ om < ss)
    ∧ (∀ b1 b2 : List GeneFamily, compBorder b1 b2 om 0 ss = true)
    ∧ (makeSpotGraph rgps borderOf om ss 0).length ≤ 1
    ∧ ∀ r ∈ rgps, ¬((borderOf r).1.length < ss ∨ (borderOf r).2.length < ss) →
        ∃ sp ∈ makeSpotGraph rgps borderOf om ss 0, r ∈ sp.2 := by
  have hcheck : checkParameterLogic om ss 0 = Except.ok () ↔ om < ss := by
    unfold checkParameterLogic
    constructor
    · intro h
      by_contra hge
      rw [if_pos (by omega)] at h
      cases h
    · intro h
      rw [if_neg (by omega), if_neg (by omega)]
  refine ⟨hcheck, fun b1 b2 => compBorder_em0 b1 b2 om ss, ?_, ?_⟩
  all_goals
    unfold makeSpotGraph
    dsimp only
    set nodes := rgps.foldl (fun acc rgp =>
      if (borderOf rgp).1.length < ss || (borderOf rgp).2.length < ss then acc
      else addNewNode acc rgp (borderOf rgp).1 (borderOf rgp).2) [] with hnodes
  all_goals
    have hadj : ∀ v u, v < nodes.length → u < nodes.length → v ≠ u →
        (spotEdge nodes om 0 ss v u || spotEdge nodes om 0 ss u v) = true := by
      intro v u hv hu hvu
      rw [spotEdge_em0 nodes om ss hv hu hvu]
      rfl
    obtain ⟨hlen, hmem⟩ := buildComponents_collapse (spotEdge nodes om 0 ss)
      (fun k => k < nodes.length) hadj (List.range nodes.length) []
      (fun v hv => List.mem_range.mp hv) (List.nodup_range _)
      (fun c hc => absurd hc (List.not_mem_nil c)) (by simp)
  · rw [List.length_map]
    exact hlen
  · intro r hr hkeep
    have hnode : ∃ nd ∈ nodes, r ∈ nd.rgps :=
      spotNodes_mem borderOf ss rgps [] r (Or.inr ⟨hr, hkeep⟩)
    obtain ⟨nd, hnd, hrnd⟩ := hnode
    obtain ⟨i, hi, hieq⟩ := List.mem_iff_getElem.mp hnd
    obtain ⟨c, hc, hic⟩ := hmem i (Or.inr (List.mem_range.mpr hi))
    refine ⟨_, List.mem_map_of_mem _ hc, ?_⟩
    dsimp only
    apply List.mem_flatMap.mpr
    refine ⟨i, hic, ?_⟩
    rw [List.getElem?_eq_getElem hi, hieq]
    exact hrnd

/-- C10 witness: two regions with full-size identical borders collapse into
one spot containing them. -/
theorem c10_witness :
    ¬ ((borderOfW regX).1.length < 3 ∨ (borderOfW regX).2.length < 3)
    ∧ ∃ sp ∈ makeSpotGraph [regX, regY] borderOfW 2 3 0, regX ∈ sp.2 :=
  ⟨by decide,
   (c10_exact_match_zero [regX, regY] borderOfW 2 3).2.2.2 regX (by decide) (by decide)⟩
